import Mathlib

/-!
Verification of the electoral-college tally program (`electoral_college.py`).

The program has two components:
* `get_winner` — given a dict of region → elector count and a dict of
  region → party outcome, tallies electoral votes per party and returns
  the winner (or a tie).
* `to_dict` — reads a two-column, tab-delimited text source into a dict,
  converting the second column with a caller-supplied value conversion.

Python dicts are modelled as association lists with unique keys in
insertion order: `dictInsert` updates an existing key in place (keeping
its position, as CPython does) and appends new keys at the end;
`dictGet?` is `d[k]` returning `none` where Python raises `KeyError`;
iteration over `d.items()` is iteration over the list.  Python strings
handled by the loader are modelled as `List Char`; `pyStrip` and
`splitTab` model `str.strip()` and `str.split("\t")`.  Python exceptions
are modelled with `Except`: `TallyError` covers the `ValueError` raised
on a bad outcome value and the `KeyError` from the elector lookup;
`LoadError` covers the wrong-column-count `ValueError` and a failure of
the value conversion.
-/

/-- Dictionary update `d[k] = v` with CPython semantics: an existing key keeps
its position and gets the new value; a new key is appended at the end. -/
def dictInsert {κ α : Type} [DecidableEq κ] (d : List (κ × α)) (k : κ) (v : α) :
    List (κ × α) :=
  match d with
  | [] => [(k, v)]
  | (k', v') :: rest => if k' = k then (k, v) :: rest else (k', v') :: dictInsert rest k v

/-- Dictionary lookup `d[k]`, returning `none` where Python raises `KeyError`. -/
def dictGet? {κ α : Type} [DecidableEq κ] (d : List (κ × α)) (k : κ) : Option α :=
  match d with
  | [] => none
  | (k', v') :: rest => if k' = k then some v' else dictGet? rest k

/-- Message of the `ValueError` that `get_winner` raises on an outcome value
other than "R"/"D".  The source uses this fixed text, which does not name the
offending value. -/
def invalidOutcomeMsg : String := "Invalid outcome value. Should be either 'R' or 'D'."

/-- Errors raised by `get_winner`: the `ValueError` for an outcome value other
than "R"/"D" (carrying its message, the fixed `invalidOutcomeMsg`), and the
`KeyError` from `elector_dict[state]` (carrying the missing key, as the Python
exception does). -/
inductive TallyError : Type where
  | invalidOutcome (message : String)
  | keyLookup (key : String)
deriving DecidableEq

/-- Loop body of `get_winner`: iterate over `outcome_dict.items()`, adding
`elector_dict[state]` to the "R" or "D" running total, raising `ValueError`
on any other outcome value and `KeyError` on a missing elector entry. -/
def tallyLoop (elector : List (String × Int)) :
    List (String × String) → Int → Int → Except TallyError (Int × Int)
  | [], totalR, totalD => .ok (totalR, totalD)
  | (state, outcome) :: rest, totalR, totalD =>
    if outcome = "R" then
      match dictGet? elector state with
      | some n => tallyLoop elector rest (totalR + n) totalD
      | none => .error (.keyLookup state)
    else if outcome = "D" then
      match dictGet? elector state with
      | some n => tallyLoop elector rest totalR (totalD + n)
      | none => .error (.keyLookup state)
    else .error (.invalidOutcome invalidOutcomeMsg)

/-- Embedding of `get_winner(elector_dict, outcome_dict)`: accumulate the two
totals over the outcome dict, then apply the decision rule. -/
def get_winner (elector : List (String × Int)) (outcome : List (String × String)) :
    Except TallyError (String × Int) :=
  match tallyLoop elector outcome 0 0 with
  | .error e => .error e
  | .ok (totalR, totalD) =>
    if totalR > totalD then .ok ("R", totalR)
    else if totalD > totalR then .ok ("D", totalD)
    else .ok ("Tie", totalR)

/-- Specification-side total: the sum of the elector counts of the regions the
outcome dict assigns to `party` (missing regions contribute their lookup's
default; under the claims' hypotheses every region is present). -/
def partyTotal (elector : List (String × Int)) (outcome : List (String × String))
    (party : String) : Int :=
  ((outcome.filter (fun p => p.2 == party)).map
    (fun p => (dictGet? elector p.1).getD 0)).sum

/-- Whitespace characters stripped by Python `str.strip()`. -/
def isPyWs (c : Char) : Bool :=
  c = ' ' || c = '\t' || c = '\n' || c = '\r' || c = '\x0b' || c = '\x0c'

/-- Removal of trailing Python whitespace. -/
def dropTrailWs (l : List Char) : List Char :=
  (l.reverse.dropWhile isPyWs).reverse

/-- Model of Python `line.strip()`. -/
def pyStrip (l : List Char) : List Char :=
  dropTrailWs (l.dropWhile isPyWs)

/-- Model of Python `line.split("\t")` (split on the single tab character;
the empty string splits to one empty field). -/
def splitTab : List Char → List (List Char)
  | [] => [[]]
  | c :: rest =>
    if c = '\t' then [] :: splitTab rest
    else
      match splitTab rest with
      | f :: r => (c :: f) :: r
      | [] => [[c]]

/-- Errors raised by `to_dict`: the `ValueError` for a wrong column count
(carrying the 1-based line number and the filename) and a failure of the
caller-supplied value conversion. -/
inductive LoadError (ε : Type) : Type where
  | format (lineNo : Nat) (filename : String)
  | conversion (e : ε)
deriving DecidableEq

/-- Loop body of `to_dict`: for each line (1-based counter `n`), strip it,
skip it if blank, split it on tab, raise `ValueError` unless there are
exactly two fields, convert the second field, and store the pair. -/
def to_dictLoop {ε α : Type} (value_type : List Char → Except ε α) (filename : String) :
    List (List Char) → Nat → List (List Char × α) →
    Except (LoadError ε) (List (List Char × α))
  | [], _, acc => .ok acc
  | rawLine :: rest, n, acc =>
    let line := pyStrip rawLine
    if line = [] then to_dictLoop value_type filename rest (n + 1) acc
    else
      match splitTab line with
      | [k, v] =>
        match value_type v with
        | .ok x => to_dictLoop value_type filename rest (n + 1) (dictInsert acc k x)
        | .error e => .error (.conversion e)
      | _ => .error (.format n filename)

/-- Embedding of `to_dict(filename, value_type)`, applied to the file's lines
(line terminators are immaterial: each line is stripped first). -/
def to_dict {ε α : Type} (value_type : List Char → Except ε α) (filename : String)
    (fileLines : List (List Char)) : Except (LoadError ε) (List (List Char × α)) :=
  to_dictLoop value_type filename fileLines 1 []

/-- Identity/string value conversion (`value_type=str`); it never fails. -/
def strConv (v : List Char) : Except Empty (List Char) := .ok v

/-- Toy fallible value conversion for concrete witnesses: accepts a single
decimal digit, fails otherwise (standing in for `value_type=int`). -/
def digitConv (l : List Char) : Except (List Char) Nat :=
  match l with
  | [c] => if c.isDigit then .ok (c.toNat - 48) else .error l
  | _ => .error l

/-- Decidable check that a line cannot stop the loader: it is blank after
stripping, or splits into exactly two fields with a succeeding conversion. -/
def lineOk {ε α : Type} (value_type : List Char → Except ε α) (l : List Char) : Bool :=
  if pyStrip l = [] then true
  else
    match splitTab (pyStrip l) with
    | [k, v] =>
      match value_type v with
      | .ok x => true
      | .error e => false
    | _ => false

/-- Entries contributed by the lines a successful load processes, in file
order: one `(key, converted value)` pair per non-blank well-formed line. -/
def lineEntries {ε α : Type} (value_type : List Char → Except ε α)
    (fileLines : List (List Char)) : List (List Char × α) :=
  fileLines.filterMap (fun rawLine =>
    if pyStrip rawLine = [] then none
    else
      match splitTab (pyStrip rawLine) with
      | [k, v] =>
        match value_type v with
        | .ok x => some (k, x)
        | .error _ => none
      | _ => none)

/-- Serialization of a loaded mapping back to lines: each entry tab-joined. -/
def serializeDict (m : List (List Char × List Char)) : List (List Char) :=
  m.map (fun p => p.1 ++ '\t' :: p.2)

/-- Shape invariant of every entry produced by a successful `to_dict` load
with the identity conversion: both fields are tab-free and non-empty, the key
does not start with whitespace and the value does not end with it.  These are
exactly the facts that make tab-joined serialization re-parse exactly. -/
def goodEntry (p : List Char × List Char) : Prop :=
  '\t' ∉ p.1 ∧ '\t' ∉ p.2 ∧
  (∀ c, p.1.head? = some c → isPyWs c = false) ∧
  (∀ c, p.2.getLast? = some c → isPyWs c = false) ∧
  p.1 ≠ [] ∧ p.2 ≠ []

/-- Key uniqueness of an association-list dictionary. -/
def dictNodup {κ α : Type} [DecidableEq κ] : List (κ × α) → Prop
  | [] => True
  | p :: rest => dictGet? rest p.1 = none ∧ dictNodup rest

section TallyLemmas

lemma tallyLoop_totals (elector : List (String × Int)) :
    ∀ (outcome : List (String × String)),
    (∀ p ∈ outcome, p.2 = "R" ∨ p.2 = "D") →
    (∀ p ∈ outcome, (dictGet? elector p.1).isSome) →
    ∀ r d : Int,
      tallyLoop elector outcome r d =
        .ok (r + partyTotal elector outcome "R", d + partyTotal elector outcome "D")
  | [], _, _, r, d => by simp [tallyLoop, partyTotal]
  | (s, v) :: rest, hval, hkeys, r, d => by
    have hv := hval (s, v) (List.mem_cons_self _ _)
    have hk := hkeys (s, v) (List.mem_cons_self _ _)
    obtain ⟨n, hn⟩ := Option.isSome_iff_exists.mp hk
    have ih := tallyLoop_totals elector rest
      (fun p hp => hval p (List.mem_cons_of_mem _ hp))
      (fun p hp => hkeys p (List.mem_cons_of_mem _ hp))
    rcases hv with hv | hv
    · subst hv
      simp only [tallyLoop, if_pos rfl, hn, ih]
      simp [partyTotal, hn]
      omega
    · subst hv
      have hne : ("D" : String) ≠ "R" := by decide
      simp only [tallyLoop, if_neg hne, if_pos rfl, hn, ih]
      simp [partyTotal, hn]
      omega

lemma get_winner_error (elector : List (String × Int)) (outcome : List (String × String))
    (e : TallyError) (h : tallyLoop elector outcome 0 0 = .error e) :
    get_winner elector outcome = .error e := by
  simp [get_winner, h]

lemma tallyLoop_invalid (elector : List (String × Int)) :
    ∀ (outcome : List (String × String)) (s v : String),
    (∀ p ∈ outcome, (dictGet? elector p.1).isSome) →
    outcome.find? (fun p => !(p.2 == "R" || p.2 == "D")) = some (s, v) →
    ∀ r d : Int, tallyLoop elector outcome r d = .error (.invalidOutcome invalidOutcomeMsg)
  | [], s, v, _, hfind => by simp [List.find?] at hfind
  | (s', v') :: rest, s, v, hkeys, hfind => by
    by_cases hbad : v' = "R" ∨ v' = "D"
    · have hpred : (!(v' == "R" || v' == "D")) = false := by
        rcases hbad with h | h <;> simp [h]
      rw [List.find?_cons_of_neg _ (by simp [hpred])] at hfind
      intro r d
      have hk := hkeys (s', v') (List.mem_cons_self _ _)
      obtain ⟨n, hn⟩ := Option.isSome_iff_exists.mp hk
      have ih := tallyLoop_invalid elector rest s v
        (fun p hp => hkeys p (List.mem_cons_of_mem _ hp)) hfind
      rcases hbad with h | h <;> subst h
      · simp only [tallyLoop, if_pos rfl, hn]
        exact ih _ _
      · have hne : ("D" : String) ≠ "R" := by decide
        simp only [tallyLoop, if_neg hne, if_pos rfl, hn]
        exact ih _ _
    · push_neg at hbad
      obtain ⟨hR, hD⟩ := hbad
      rw [List.find?_cons_of_pos _ (by simp [hR, hD])] at hfind
      simp only [Option.some.injEq, Prod.mk.injEq] at hfind
      obtain ⟨rfl, rfl⟩ := hfind
      intro r d
      simp only [tallyLoop, if_neg hR, if_neg hD]

lemma tallyLoop_missing (elector : List (String × Int)) :
    ∀ (outcome : List (String × String)) (s v : String),
    (∀ p ∈ outcome, p.2 = "R" ∨ p.2 = "D") →
    outcome.find? (fun p => (dictGet? elector p.1).isNone) = some (s, v) →
    ∀ r d : Int, tallyLoop elector outcome r d = .error (.keyLookup s)
  | [], s, v, _, hfind => by simp [List.find?] at hfind
  | (s', v') :: rest, s, v, hval, hfind => by
    have hv := hval (s', v') (List.mem_cons_self _ _)
    by_cases hmiss : dictGet? elector s' = none
    · rw [List.find?_cons_of_pos _ (by simp [hmiss])] at hfind
      simp only [Option.some.injEq, Prod.mk.injEq] at hfind
      obtain ⟨rfl, rfl⟩ := hfind
      intro r d
      rcases hv with h | h <;> subst h
      · simp only [tallyLoop, if_pos rfl, hmiss]
        simp
      · have hne : ("D" : String) ≠ "R" := by decide
        simp only [tallyLoop, if_neg hne, if_pos rfl, hmiss]
        simp
    · rw [List.find?_cons_of_neg _ (by simp [hmiss])] at hfind
      intro r d
      obtain ⟨n, hn⟩ := Option.ne_none_iff_exists'.mp hmiss
      have ih := tallyLoop_missing elector rest s v
        (fun p hp => hval p (List.mem_cons_of_mem _ hp)) hfind
      rcases hv with h | h <;> subst h
      · simp only [tallyLoop, if_pos rfl, hn]
        exact ih _ _
      · have hne : ("D" : String) ≠ "R" := by decide
        simp only [tallyLoop, if_neg hne, if_pos rfl, hn]
        exact ih _ _

lemma tallyLoop_append (elector : List (String × Int)) :
    ∀ (pre suf : List (String × String)),
    (∀ p ∈ pre, (p.2 = "R" ∨ p.2 = "D") ∧ (dictGet? elector p.1).isSome) →
    ∀ r d : Int, ∃ r' d' : Int,
      tallyLoop elector (pre ++ suf) r d = tallyLoop elector suf r' d'
  | [], _, _, r, d => ⟨r, d, rfl⟩
  | (s', v') :: pre, suf, hpre, r, d => by
    obtain ⟨hv, hk⟩ := hpre (s', v') (List.mem_cons_self _ _)
    obtain ⟨n, hn⟩ := Option.isSome_iff_exists.mp hk
    have ih := tallyLoop_append elector pre suf
      (fun p hp => hpre p (List.mem_cons_of_mem _ hp))
    rcases hv with h | h <;> subst h
    · obtain ⟨r', d', h'⟩ := ih (r + n) d
      refine ⟨r', d', ?_⟩
      simp only [List.cons_append, tallyLoop, if_pos rfl, hn]
      exact h'
    · obtain ⟨r', d', h'⟩ := ih r (d + n)
      refine ⟨r', d', ?_⟩
      have hne : ("D" : String) ≠ "R" := by decide
      simp only [List.cons_append, tallyLoop, if_neg hne, if_pos rfl, hn]
      exact h'

end TallyLemmas

/-- C9: with an empty outcome dict both running totals stay 0, the loop body
never runs, and the equality branch reports ("Tie", 0), for any elector dict. -/
theorem get_winner_empty_outcome_tie (elector : List (String × Int)) :
    get_winner elector [] = .ok ("Tie", 0) := rfl

/-- C7: get_winner is deterministic — two calls on the same two mappings give
identical results.  Side-effect freedom is expressed by the embedding itself:
`get_winner` is a total function of its two arguments and returns without
modifying them. -/
theorem get_winner_deterministic (elector : List (String × Int))
    (outcome : List (String × String)) (r₁ r₂ : Except TallyError (String × Int))
    (h₁ : get_winner elector outcome = r₁) (h₂ : get_winner elector outcome = r₂) :
    r₁ = r₂ := h₁ ▸ h₂

theorem get_winner_deterministic_witness :
    (Except.ok ("Tie", 0) : Except TallyError (String × Int)) = .ok ("Tie", 0) :=
  get_winner_deterministic [("A", 3)] [] _ _ rfl rfl

/-- C1: on a valid pair of mappings (every outcome value is "R" or "D" and
every outcome region has an elector entry) get_winner returns exactly one of
("R", R-total), ("D", D-total), ("Tie", shared total), where each party's
total sums the elector counts of its regions and the winner is the party
with the strictly larger total. -/
theorem get_winner_valid_inputs_spec (elector : List (String × Int))
    (outcome : List (String × String))
    (hval : ∀ p ∈ outcome, p.2 = "R" ∨ p.2 = "D")
    (hkeys : ∀ p ∈ outcome, (dictGet? elector p.1).isSome) :
    get_winner elector outcome =
      .ok (if partyTotal elector outcome "R" > partyTotal elector outcome "D"
            then ("R", partyTotal elector outcome "R")
            else if partyTotal elector outcome "D" > partyTotal elector outcome "R"
            then ("D", partyTotal elector outcome "D")
            else ("Tie", partyTotal elector outcome "R")) := by
  have h := tallyLoop_totals elector outcome hval hkeys 0 0
  simp only [zero_add] at h
  simp only [get_winner, h]
  split
  · rfl
  · split
    · rfl
    · rfl

theorem get_winner_valid_inputs_spec_witness :
    get_winner [("A", 3), ("B", 5), ("C", 2)] [("A", "R"), ("B", "D"), ("C", "D")] =
      .ok ("D", 7) := by
  have h := get_winner_valid_inputs_spec [("A", 3), ("B", 5), ("C", 2)]
    [("A", "R"), ("B", "D"), ("C", "D")] (by decide) (by decide)
  exact h.trans rfl

/-- C2 counterexample: the InvalidOutcomeError does not name the offending
value — two outcome dicts whose sole entries have the distinct invalid values
"X" and "Y" fail with identical errors, whose payload is the fixed message of
the source's ValueError, not the offending value. -/
theorem get_winner_invalid_outcome_counterexample :
    get_winner [("A", 3)] [("A", "X")] = get_winner [("A", 3)] [("A", "Y")] ∧
    get_winner [("A", 3)] [("A", "X")] = .error (.invalidOutcome invalidOutcomeMsg) :=
  ⟨rfl, rfl⟩

/-- C2 (amended): when the outcome dict has an entry whose value is neither
"R" nor "D" (all regions being present in the elector dict), get_winner fails
with an InvalidOutcomeError carrying the source's fixed message — which does
not name the offending value — and the first invalid entry in iteration order
aborts the whole computation. -/
theorem get_winner_invalid_outcome_error (elector : List (String × Int))
    (outcome : List (String × String)) (s v : String)
    (hkeys : ∀ p ∈ outcome, (dictGet? elector p.1).isSome)
    (hfind : outcome.find? (fun p => !(p.2 == "R" || p.2 == "D")) = some (s, v)) :
    get_winner elector outcome = .error (.invalidOutcome invalidOutcomeMsg) :=
  get_winner_error elector outcome _
    (tallyLoop_invalid elector outcome s v hkeys hfind 0 0)

theorem get_winner_invalid_outcome_error_witness :
    get_winner [("A", 3), ("B", 1), ("C", 2)] [("A", "R"), ("B", "X"), ("C", "D")] =
      .error (.invalidOutcome invalidOutcomeMsg) :=
  get_winner_invalid_outcome_error [("A", 3), ("B", 1), ("C", 2)]
    [("A", "R"), ("B", "X"), ("C", "D")] "B" "X" (by decide) (by decide)

/-- C3: when every outcome value is "R" or "D" but some region of the outcome
dict is absent from the elector dict, get_winner fails with the KeyLookupError
propagated from the elector lookup of the first such region — the region is
not silently skipped. -/
theorem get_winner_missing_region_error (elector : List (String × Int))
    (outcome : List (String × String)) (s v : String)
    (hval : ∀ p ∈ outcome, p.2 = "R" ∨ p.2 = "D")
    (hfind : outcome.find? (fun p => (dictGet? elector p.1).isNone) = some (s, v)) :
    get_winner elector outcome = .error (.keyLookup s) :=
  get_winner_error elector outcome _
    (tallyLoop_missing elector outcome s v hval hfind 0 0)

theorem get_winner_missing_region_error_witness :
    get_winner [("A", 3)] [("A", "R"), ("B", "D")] = .error (.keyLookup "B") :=
  get_winner_missing_region_error [("A", 3)] [("A", "R"), ("B", "D")] "B" "D"
    (by decide) (by decide)

/-- C10: error precedence — an entry whose outcome value is invalid raises the
invalid-outcome error without its region ever being looked up, so a region
that both has an invalid outcome and is missing from the elector dict is
reported as an invalid outcome, never as a lookup failure. -/
theorem get_winner_invalid_outcome_precedence (elector : List (String × Int))
    (pre rest : List (String × String)) (s v : String)
    (hpre : ∀ p ∈ pre, (p.2 = "R" ∨ p.2 = "D") ∧ (dictGet? elector p.1).isSome)
    (hR : v ≠ "R") (hD : v ≠ "D") (hmiss : dictGet? elector s = none) :
    get_winner elector (pre ++ (s, v) :: rest) =
      .error (.invalidOutcome invalidOutcomeMsg) := by
  obtain ⟨r', d', h'⟩ := tallyLoop_append elector pre ((s, v) :: rest) hpre 0 0
  refine get_winner_error elector _ _ ?_
  rw [h']
  simp only [tallyLoop, if_neg hR, if_neg hD]

theorem get_winner_invalid_outcome_precedence_witness :
    get_winner [("A", 3)] ([("A", "R")] ++ ("Z", "X") :: [("Q", "D")]) =
      .error (.invalidOutcome invalidOutcomeMsg) :=
  get_winner_invalid_outcome_precedence [("A", 3)] [("A", "R")] [("Q", "D")] "Z" "X"
    (by decide) (by decide) (by decide) (by decide)

section LoaderLemmas

lemma lineOk_elim {ε α : Type} (vt : List Char → Except ε α) (raw : List Char)
    (h : lineOk vt raw = true) :
    pyStrip raw = [] ∨ ∃ k v x, splitTab (pyStrip raw) = [k, v] ∧ vt v = .ok x := by
  unfold lineOk at h
  split at h
  · left; assumption
  · right
    split at h
    · next k v heq =>
      split at h
      · next x hvt => exact ⟨k, v, x, heq, hvt⟩
      · exact absurd h (by simp)
    · exact absurd h (by simp)

lemma to_dictLoop_cons_blank {ε α : Type} (vt : List Char → Except ε α) (fn : String)
    (raw : List Char) (rest : List (List Char)) (n : Nat) (acc : List (List Char × α))
    (hb : pyStrip raw = []) :
    to_dictLoop vt fn (raw :: rest) n acc = to_dictLoop vt fn rest (n + 1) acc := by
  simp [to_dictLoop, hb]

lemma to_dictLoop_cons_entry {ε α : Type} (vt : List Char → Except ε α) (fn : String)
    (raw : List Char) (rest : List (List Char)) (n : Nat) (acc : List (List Char × α))
    (k v : List Char) (x : α)
    (hsp : splitTab (pyStrip raw) = [k, v]) (hvt : vt v = .ok x) :
    to_dictLoop vt fn (raw :: rest) n acc =
      to_dictLoop vt fn rest (n + 1) (dictInsert acc k x) := by
  have hb : pyStrip raw ≠ [] := by
    intro h
    rw [h] at hsp
    simp [splitTab] at hsp
  simp [to_dictLoop, if_neg hb, hsp, hvt]

lemma to_dictLoop_cons_conv_error {ε α : Type} (vt : List Char → Except ε α) (fn : String)
    (raw : List Char) (rest : List (List Char)) (n : Nat) (acc : List (List Char × α))
    (k v : List Char) (e : ε)
    (hsp : splitTab (pyStrip raw) = [k, v]) (hvt : vt v = .error e) :
    to_dictLoop vt fn (raw :: rest) n acc = .error (.conversion e) := by
  have hb : pyStrip raw ≠ [] := by
    intro h
    rw [h] at hsp
    simp [splitTab] at hsp
  simp [to_dictLoop, if_neg hb, hsp, hvt]

lemma to_dictLoop_cons_format {ε α : Type} (vt : List Char → Except ε α) (fn : String)
    (raw : List Char) (rest : List (List Char)) (n : Nat) (acc : List (List Char × α))
    (hb : pyStrip raw ≠ []) (hlen : (splitTab (pyStrip raw)).length ≠ 2) :
    to_dictLoop vt fn (raw :: rest) n acc = .error (.format n fn) := by
  rcases hsp : splitTab (pyStrip raw) with _ | ⟨k, tl⟩
  · simp [to_dictLoop, if_neg hb, hsp]
  · rcases tl with _ | ⟨v, tl2⟩
    · simp [to_dictLoop, if_neg hb, hsp]
    · rcases tl2 with _ | ⟨w, tl3⟩
      · rw [hsp] at hlen
        simp at hlen
      · simp [to_dictLoop, if_neg hb, hsp]

lemma to_dictLoop_skip {ε α : Type} (vt : List Char → Except ε α) (fn : String) :
    ∀ (pre suf : List (List Char)) (n : Nat) (acc : List (List Char × α)),
    (∀ l ∈ pre, lineOk vt l = true) →
    ∃ acc', to_dictLoop vt fn (pre ++ suf) n acc =
      to_dictLoop vt fn suf (n + pre.length) acc'
  | [], suf, n, acc, _ => ⟨acc, by simp⟩
  | raw :: pre, suf, n, acc, hpre => by
    have hok := lineOk_elim vt raw (hpre raw (List.mem_cons_self _ _))
    have hrest : ∀ l ∈ pre, lineOk vt l = true :=
      fun l hl => hpre l (List.mem_cons_of_mem _ hl)
    have hlen : ((raw :: pre).length : Nat) = pre.length + 1 := by simp
    rcases hok with hb | ⟨k, v, x, hsp, hvt⟩
    · obtain ⟨acc', h'⟩ := to_dictLoop_skip vt fn pre suf (n + 1) acc hrest
      refine ⟨acc', ?_⟩
      rw [List.cons_append, to_dictLoop_cons_blank vt fn raw _ n acc hb, h', hlen]
      ring_nf
    · obtain ⟨acc', h'⟩ :=
        to_dictLoop_skip vt fn pre suf (n + 1) (dictInsert acc k x) hrest
      refine ⟨acc', ?_⟩
      rw [List.cons_append, to_dictLoop_cons_entry vt fn raw _ n acc k v x hsp hvt, h',
        hlen]
      ring_nf

end LoaderLemmas

/-- C4: a non-blank line that does not split into exactly two fields on the
tab delimiter makes to_dict fail with a FormatError carrying that line's
1-based number and the source identifier (every earlier line being one the
loader accepts), and no partial mapping is returned. -/
theorem to_dict_format_error {ε α : Type} (vt : List Char → Except ε α) (fn : String)
    (pre : List (List Char)) (bad : List Char) (rest : List (List Char))
    (hpre : ∀ l ∈ pre, lineOk vt l = true)
    (hbad1 : pyStrip bad ≠ [])
    (hbad2 : (splitTab (pyStrip bad)).length ≠ 2) :
    to_dict vt fn (pre ++ bad :: rest) = .error (.format (pre.length + 1) fn) := by
  unfold to_dict
  obtain ⟨acc', h'⟩ := to_dictLoop_skip vt fn pre (bad :: rest) 1 [] hpre
  rw [Nat.add_comm pre.length 1, h',
    to_dictLoop_cons_format vt fn bad rest (1 + pre.length) acc' hbad1 hbad2]

theorem to_dict_format_error_witness :
    to_dict strConv "electors.txt"
        ([['a', '\t', 'b'], []] ++ ['x', '\t', 'y', '\t', 'z'] :: [['q', '\t', 'r']]) =
      .error (.format 3 "electors.txt") :=
  to_dict_format_error strConv "electors.txt" [['a', '\t', 'b'], []]
    ['x', '\t', 'y', '\t', 'z'] [['q', '\t', 'r']] (by decide) (by decide) (by decide)

/-- C5: a well-formed two-field line whose second field the caller-supplied
value conversion rejects makes to_dict fail with that conversion error
surfaced to the caller (every earlier line being one the loader accepts);
no mapping is returned. -/
theorem to_dict_conversion_error {ε α : Type} (vt : List Char → Except ε α) (fn : String)
    (pre : List (List Char)) (bad : List Char) (rest : List (List Char))
    (k v : List Char) (e : ε)
    (hpre : ∀ l ∈ pre, lineOk vt l = true)
    (hsplit : splitTab (pyStrip bad) = [k, v])
    (hconv : vt v = .error e) :
    to_dict vt fn (pre ++ bad :: rest) = .error (.conversion e) := by
  unfold to_dict
  obtain ⟨acc', h'⟩ := to_dictLoop_skip vt fn pre (bad :: rest) 1 [] hpre
  rw [h', to_dictLoop_cons_conv_error vt fn bad rest (1 + pre.length) acc' k v e
    hsplit hconv]

theorem to_dict_conversion_error_witness :
    to_dict digitConv "electors.txt"
        ([['a', '\t', '1']] ++ ['b', '\t', 'x'] :: []) =
      .error (.conversion ['x']) :=
  to_dict_conversion_error digitConv "electors.txt" [['a', '\t', '1']]
    ['b', '\t', 'x'] [] ['b'] ['x'] ['x'] (by decide) (by decide) rfl

section DictLemmas

lemma dictGet?_dictInsert_self {κ α : Type} [DecidableEq κ] :
    ∀ (d : List (κ × α)) (k : κ) (v : α), dictGet? (dictInsert d k v) k = some v
  | [], k, v => by simp [dictInsert, dictGet?]
  | (k', v') :: rest, k, v => by
    by_cases h : k' = k
    · simp [dictInsert, if_pos h, dictGet?]
    · simp only [dictInsert, if_neg h, dictGet?]
      exact dictGet?_dictInsert_self rest k v

lemma dictGet?_dictInsert_ne {κ α : Type} [DecidableEq κ] :
    ∀ (d : List (κ × α)) (kIns kGet : κ) (v : α), kIns ≠ kGet →
      dictGet? (dictInsert d kIns v) kGet = dictGet? d kGet
  | [], kIns, kGet, v, h => by simp [dictInsert, dictGet?, if_neg h]
  | (k', v') :: rest, kIns, kGet, v, h => by
    by_cases h' : k' = kIns
    · subst h'
      simp only [dictInsert, if_pos rfl, dictGet?]
      rw [if_neg h, if_neg h]
    · simp only [dictInsert, if_neg h', dictGet?]
      by_cases h'' : k' = kGet
      · rw [if_pos h'', if_pos h'']
      · rw [if_neg h'', if_neg h'']
        exact dictGet?_dictInsert_ne rest kIns kGet v h

lemma to_dictLoop_ok_fold {ε α : Type} (vt : List Char → Except ε α) (fn : String) :
    ∀ (lines : List (List Char)) (n : Nat) (acc m : List (List Char × α)),
    to_dictLoop vt fn lines n acc = .ok m →
    m = (lineEntries vt lines).foldl (fun d p => dictInsert d p.1 p.2) acc
  | [], n, acc, m, h => by
    simp [to_dictLoop] at h
    simp [lineEntries, ← h]
  | raw :: rest, n, acc, m, h => by
    by_cases hb : pyStrip raw = []
    · rw [to_dictLoop_cons_blank vt fn raw rest n acc hb] at h
      have hent : lineEntries vt (raw :: rest) = lineEntries vt rest := by
        simp [lineEntries, List.filterMap_cons, hb]
      rw [hent]
      exact to_dictLoop_ok_fold vt fn rest (n + 1) acc m h
    · by_cases h2 : (splitTab (pyStrip raw)).length = 2
      · rcases hsp : splitTab (pyStrip raw) with _ | ⟨k, tl⟩
        · rw [hsp] at h2
          simp at h2
        · rcases tl with _ | ⟨v, tl2⟩
          · rw [hsp] at h2
            simp at h2
          · rcases tl2 with _ | ⟨w, tl3⟩
            · rcases hvt : vt v with e | x
              · rw [to_dictLoop_cons_conv_error vt fn raw rest n acc k v e hsp hvt] at h
                exact absurd h (by simp)
              · rw [to_dictLoop_cons_entry vt fn raw rest n acc k v x hsp hvt] at h
                have hent : lineEntries vt (raw :: rest) = (k, x) :: lineEntries vt rest := by
                  simp [lineEntries, List.filterMap_cons, hb, hsp, hvt]
                rw [hent, List.foldl_cons]
                exact to_dictLoop_ok_fold vt fn rest (n + 1) (dictInsert acc k x) m h
            · rw [hsp] at h2
              simp at h2
      · rw [to_dictLoop_cons_format vt fn raw rest n acc hb h2] at h
        exact absurd h (by simp)

lemma dictGet?_foldl_none {κ α : Type} [DecidableEq κ] :
    ∀ (entries : List (κ × α)) (d : List (κ × α)) (k : κ),
    entries.reverse.find? (fun q => decide (q.1 = k)) = none →
    dictGet? (entries.foldl (fun d q => dictInsert d q.1 q.2) d) k = dictGet? d k
  | [], d, k, _ => by simp
  | q :: rest, d, k, h => by
    rw [List.reverse_cons, List.find?_append, Option.or_eq_none] at h
    obtain ⟨h1, h2⟩ := h
    have hq : q.1 ≠ k := by
      intro hk
      rw [List.find?_cons_of_pos _ (by simp [hk])] at h2
      exact absurd h2 (by simp)
    rw [List.foldl_cons]
    rw [dictGet?_foldl_none rest (dictInsert d q.1 q.2) k h1]
    exact dictGet?_dictInsert_ne d q.1 k q.2 hq

lemma dictGet?_foldl_found {κ α : Type} [DecidableEq κ] :
    ∀ (entries : List (κ × α)) (d : List (κ × α)) (k : κ) (p : κ × α),
    entries.reverse.find? (fun q => decide (q.1 = k)) = some p →
    dictGet? (entries.foldl (fun d q => dictInsert d q.1 q.2) d) k = some p.2
  | [], d, k, p, h => by simp at h
  | q :: rest, d, k, p, h => by
    rw [List.reverse_cons, List.find?_append] at h
    rw [List.foldl_cons]
    rcases h1 : rest.reverse.find? (fun q => decide (q.1 = k)) with _ | p'
    · rw [h1, Option.none_or] at h
      by_cases hq : q.1 = k
      · rw [List.find?_cons_of_pos _ (by simp [hq])] at h
        simp only [Option.some.injEq] at h
        subst h
        rw [dictGet?_foldl_none rest (dictInsert d q.1 q.2) k h1, ← hq]
        exact dictGet?_dictInsert_self d q.1 q.2
      · rw [List.find?_cons_of_neg _ (by simp [hq]), List.find?_nil] at h
        exact absurd h (by simp)
    · rw [h1] at h
      have hp : p' = p := by
        have : (some p').or (List.find? (fun q => decide (q.1 = k)) [q]) = some p' := rfl
        rw [this] at h
        exact Option.some.inj h
      subst hp
      exact dictGet?_foldl_found rest (dictInsert d q.1 q.2) k p' h1

end DictLemmas

/-- C6: last-write-wins — in the mapping a successful load returns, each key
is bound to the converted second field of the last accepted line with that
first field: the lookup equals the value of the last matching parsed entry
(and in particular a later duplicate line overwrites an earlier one). -/
theorem to_dict_last_write_wins {ε α : Type} (vt : List Char → Except ε α) (fn : String)
    (lines : List (List Char)) (m : List (List Char × α))
    (h : to_dict vt fn lines = .ok m) (k : List Char) :
    dictGet? m k =
      ((lineEntries vt lines).reverse.find? (fun p => decide (p.1 = k))).map Prod.snd := by
  have hm := to_dictLoop_ok_fold vt fn lines 1 [] m h
  subst hm
  rcases hfind : (lineEntries vt lines).reverse.find? (fun p => decide (p.1 = k)) with _ | p
  · rw [dictGet?_foldl_none (lineEntries vt lines) [] k hfind, hfind]
    rfl
  · rw [dictGet?_foldl_found (lineEntries vt lines) [] k p hfind, hfind]
    rfl

theorem to_dict_last_write_wins_witness :
    dictGet? [(['a'], ['2'])] ['a'] = some ['2'] := by
  have h := to_dict_last_write_wins strConv "outcomes.txt"
    [['a', '\t', '1'], ['a', '\t', '2']] [(['a'], ['2'])] rfl ['a']
  exact h.trans (by decide)

section StripSplitLemmas

lemma head?_dropWhile_not {α : Type} (p : α → Bool) :
    ∀ (l : List α) (c : α), (l.dropWhile p).head? = some c → p c = false
  | [], c, h => by simp at h
  | a :: t, c, h => by
    rw [List.dropWhile_cons] at h
    by_cases ha : p a
    · rw [if_pos ha] at h
      exact head?_dropWhile_not p t c h
    · rw [if_neg ha] at h
      simp only [List.head?_cons, Option.some.injEq] at h
      subst h
      simpa using ha

lemma getLast?_dropWhile_some {α : Type} (p : α → Bool) :
    ∀ (l : List α) (c : α), (l.dropWhile p).getLast? = some c → l.getLast? = some c
  | [], c, h => by simp at h
  | a :: t, c, h => by
    rw [List.dropWhile_cons] at h
    by_cases ha : p a
    · rw [if_pos ha] at h
      have ht := getLast?_dropWhile_some p t c h
      cases t with
      | nil => simp at ht
      | cons b t' =>
        rw [List.getLast?_cons_cons]
        exact ht
    · rw [if_neg ha] at h
      exact h

lemma head?_dropTrailWs_some (l : List Char) (c : Char)
    (h : (dropTrailWs l).head? = some c) : l.head? = some c := by
  unfold dropTrailWs at h
  rw [List.head?_reverse] at h
  have h2 := getLast?_dropWhile_some isPyWs l.reverse c h
  rwa [List.getLast?_reverse] at h2

lemma getLast?_dropTrailWs_not (l : List Char) (c : Char)
    (h : (dropTrailWs l).getLast? = some c) : isPyWs c = false := by
  unfold dropTrailWs at h
  rw [List.getLast?_reverse] at h
  exact head?_dropWhile_not isPyWs l.reverse c h

lemma pyStrip_head?_not (l : List Char) (c : Char)
    (h : (pyStrip l).head? = some c) : isPyWs c = false := by
  unfold pyStrip at h
  exact head?_dropWhile_not isPyWs l c (head?_dropTrailWs_some _ c h)

lemma pyStrip_getLast?_not (l : List Char) (c : Char)
    (h : (pyStrip l).getLast? = some c) : isPyWs c = false :=
  getLast?_dropTrailWs_not _ c h

lemma dropWhile_eq_self_of_head {α : Type} (p : α → Bool) (l : List α)
    (h : ∀ c, l.head? = some c → p c = false) : l.dropWhile p = l := by
  cases l with
  | nil => rfl
  | cons a t =>
    rw [List.dropWhile_cons, if_neg]
    simp [h a rfl]

lemma dropTrailWs_eq_self (l : List Char)
    (h : ∀ c, l.getLast? = some c → isPyWs c = false) : dropTrailWs l = l := by
  unfold dropTrailWs
  rw [dropWhile_eq_self_of_head isPyWs l.reverse
    (fun c hc => h c (by rwa [List.head?_reverse] at hc)), List.reverse_reverse]

lemma pyStrip_eq_self (l : List Char)
    (h1 : ∀ c, l.head? = some c → isPyWs c = false)
    (h2 : ∀ c, l.getLast? = some c → isPyWs c = false) : pyStrip l = l := by
  unfold pyStrip
  rw [dropWhile_eq_self_of_head isPyWs l h1]
  exact dropTrailWs_eq_self l h2

lemma splitTab_ne_nil : ∀ (l : List Char), splitTab l ≠ []
  | [] => by simp [splitTab]
  | c :: rest => by
    by_cases h : c = '\t'
    · simp [splitTab, h]
    · rcases hs : splitTab rest with _ | ⟨f, r⟩
      · simp [splitTab, h, hs]
      · simp [splitTab, h, hs]

lemma splitTab_no_tab : ∀ (l : List Char), '\t' ∉ l → splitTab l = [l]
  | [], _ => rfl
  | c :: rest, h => by
    have hc : ¬(c = '\t') := by
      intro hc
      exact h (by rw [hc]; exact List.mem_cons_self _ _)
    have hrest : '\t' ∉ rest := fun hr => h (List.mem_cons_of_mem _ hr)
    simp [splitTab, if_neg hc, splitTab_no_tab rest hrest]

lemma splitTab_append_tab : ∀ (k v : List Char), '\t' ∉ k →
    splitTab (k ++ '\t' :: v) = k :: splitTab v
  | [], v, _ => by simp [splitTab]
  | c :: k', v, h => by
    have hc : ¬(c = '\t') := by
      intro hc
      exact h (by rw [hc]; exact List.mem_cons_self _ _)
    have hk : '\t' ∉ k' := fun hr => h (List.mem_cons_of_mem _ hr)
    simp [splitTab, if_neg hc, splitTab_append_tab k' v hk]

lemma splitTab_single : ∀ (l x : List Char), splitTab l = [x] → l = x ∧ '\t' ∉ x
  | [], x, h => by
    obtain rfl : x = [] := by simpa [splitTab] using h.symm
    exact ⟨rfl, by simp⟩
  | c :: rest, x, h => by
    by_cases hc : c = '\t'
    · subst hc
      simp only [splitTab, if_pos rfl] at h
      injection h with h1 h2
      exact absurd h2 (splitTab_ne_nil rest)
    · rcases hs : splitTab rest with _ | ⟨f, r⟩
      · exact absurd hs (splitTab_ne_nil rest)
      · simp only [splitTab, if_neg hc, hs] at h
        injection h with h1 h2
        subst h2
        obtain ⟨hrest, hf⟩ := splitTab_single rest f hs
        subst hrest
        refine ⟨h1, ?_⟩
        rw [← h1]
        intro hmem
        rcases List.mem_cons.mp hmem with h' | h'
        · exact hc h'.symm
        · exact hf h'

lemma splitTab_pair : ∀ (l k v : List Char), splitTab l = [k, v] →
    l = k ++ '\t' :: v ∧ '\t' ∉ k ∧ '\t' ∉ v
  | [], k, v, h => by simp [splitTab] at h
  | c :: rest, k, v, h => by
    by_cases hc : c = '\t'
    · subst hc
      simp only [splitTab, if_pos rfl] at h
      injection h with h1 h2
      obtain ⟨hrest, hv⟩ := splitTab_single rest v h2
      subst hrest
      rw [← h1]
      exact ⟨by simp, by simp, hv⟩
    · rcases hs : splitTab rest with _ | ⟨f, r⟩
      · exact absurd hs (splitTab_ne_nil rest)
      · simp only [splitTab, if_neg hc, hs] at h
        injection h with h1 h2
        subst h2
        obtain ⟨hrest, hfk, hv⟩ := splitTab_pair rest f v hs
        subst hrest
        rw [← h1]
        refine ⟨by simp, ?_, hv⟩
        intro hmem
        rcases List.mem_cons.mp hmem with h' | h'
        · exact hc h'.symm
        · exact hfk h'

lemma parse_good (raw k v : List Char)
    (hsp : splitTab (pyStrip raw) = [k, v]) : goodEntry (k, v) := by
  obtain ⟨hs, hk, hv⟩ := splitTab_pair (pyStrip raw) k v hsp
  have hkne : k ≠ [] := by
    intro hke
    subst hke
    simp only [List.nil_append] at hs
    have hh : (pyStrip raw).head? = some '\t' := by rw [hs]; rfl
    have := pyStrip_head?_not raw '\t' hh
    simp [isPyWs] at this
  have hvne : v ≠ [] := by
    intro hve
    subst hve
    have hh : (pyStrip raw).getLast? = some '\t' := by
      rw [hs]
      exact List.getLast?_concat _
    have := pyStrip_getLast?_not raw '\t' hh
    simp [isPyWs] at this
  refine ⟨hk, hv, ?_, ?_, hkne, hvne⟩
  · intro c hc
    apply pyStrip_head?_not raw c
    rw [hs, List.head?_append_of_ne_nil k hkne]
    exact hc
  · intro c hc
    apply pyStrip_getLast?_not raw c
    rw [hs, List.getLast?_append_of_ne_nil k (by simp)]
    cases v with
    | nil => exact absurd rfl hvne
    | cons b t =>
      rw [List.getLast?_cons_cons]
      exact hc

lemma serial_strip (k v : List Char) (hg : goodEntry (k, v)) :
    pyStrip (k ++ '\t' :: v) = k ++ '\t' :: v := by
  obtain ⟨hk, hv, hh, hl, hkne, hvne⟩ := hg
  apply pyStrip_eq_self
  · intro c hc
    rw [List.head?_append_of_ne_nil k hkne] at hc
    exact hh c hc
  · intro c hc
    rw [List.getLast?_append_of_ne_nil k (by simp)] at hc
    cases v with
    | nil => exact absurd rfl hvne
    | cons b t =>
      rw [List.getLast?_cons_cons] at hc
      exact hl c hc

lemma serial_split (k v : List Char) (hg : goodEntry (k, v)) :
    splitTab (k ++ '\t' :: v) = [k, v] := by
  obtain ⟨hk, hv, _, _, _, _⟩ := hg
  rw [splitTab_append_tab k v hk, splitTab_no_tab v hv]

end StripSplitLemmas

section RoundTripLemmas

lemma lineEntries_shape {ε α : Type} (vt : List Char → Except ε α)
    (lines : List (List Char)) (p : List Char × α) (hp : p ∈ lineEntries vt lines) :
    ∃ raw ∈ lines, ∃ v, splitTab (pyStrip raw) = [p.1, v] ∧ vt v = .ok p.2 := by
  rw [lineEntries, List.mem_filterMap] at hp
  obtain ⟨raw, hraw, hf⟩ := hp
  refine ⟨raw, hraw, ?_⟩
  split at hf
  · exact absurd hf (by simp)
  · split at hf
    · next k v heq =>
      split at hf
      · next x hvt =>
        simp only [Option.some.injEq] at hf
        subst hf
        exact ⟨v, heq, hvt⟩
      · exact absurd hf (by simp)
    · exact absurd hf (by simp)

lemma lineEntries_good (lines : List (List Char)) :
    ∀ p ∈ lineEntries strConv lines, goodEntry p := by
  intro p hp
  obtain ⟨raw, _, v, hsp, hvt⟩ := lineEntries_shape strConv lines p hp
  have hv : v = p.2 := by simpa [strConv] using hvt
  subst hv
  exact parse_good raw p.1 p.2 hsp

lemma mem_dictInsert {κ α : Type} [DecidableEq κ] :
    ∀ (d : List (κ × α)) (k : κ) (v : α) (p : κ × α),
      p ∈ dictInsert d k v → p = (k, v) ∨ p ∈ d
  | [], k, v, p, hp => by
    simp [dictInsert] at hp
    exact Or.inl hp
  | (k', v') :: rest, k, v, p, hp => by
    by_cases hk : k' = k
    · simp only [dictInsert, if_pos hk] at hp
      rcases List.mem_cons.mp hp with h | h
      · exact Or.inl h
      · exact Or.inr (List.mem_cons_of_mem _ h)
    · simp only [dictInsert, if_neg hk] at hp
      rcases List.mem_cons.mp hp with h | h
      · exact Or.inr (by rw [h]; exact List.mem_cons_self _ _)
      · rcases mem_dictInsert rest k v p h with h' | h'
        · exact Or.inl h'
        · exact Or.inr (List.mem_cons_of_mem _ h')

lemma foldl_ins_good :
    ∀ (entries acc : List (List Char × List Char)),
    (∀ p ∈ entries, goodEntry p) → (∀ p ∈ acc, goodEntry p) →
    ∀ p ∈ entries.foldl (fun d p => dictInsert d p.1 p.2) acc, goodEntry p
  | [], acc, _, hacc, p, hp => hacc p hp
  | q :: rest, acc, hent, hacc, p, hp => by
    rw [List.foldl_cons] at hp
    refine foldl_ins_good rest (dictInsert acc q.1 q.2)
      (fun r hr => hent r (List.mem_cons_of_mem _ hr)) ?_ p hp
    intro r hr
    rcases mem_dictInsert acc q.1 q.2 r hr with h | h
    · rw [h]
      exact hent q (List.mem_cons_self _ _)
    · exact hacc r h

lemma dictGet?_none_forall {κ α : Type} [DecidableEq κ] :
    ∀ (d : List (κ × α)) (k : κ), dictGet? d k = none → ∀ q ∈ d, q.1 ≠ k
  | [], k, _, q, hq => absurd hq (List.not_mem_nil q)
  | (k', v') :: rest, k, h, q, hq => by
    simp only [dictGet?] at h
    by_cases hk : k' = k
    · rw [if_pos hk] at h
      exact absurd h (by simp)
    · rw [if_neg hk] at h
      rcases List.mem_cons.mp hq with h' | h'
      · rw [h']
        exact hk
      · exact dictGet?_none_forall rest k h q h'

lemma dictNodup_dictInsert {κ α : Type} [DecidableEq κ] :
    ∀ (d : List (κ × α)) (k : κ) (v : α), dictNodup d → dictNodup (dictInsert d k v)
  | [], k, v, _ => by simp [dictInsert, dictNodup, dictGet?]
  | (k', v') :: rest, k, v, hd => by
    obtain ⟨h1, h2⟩ := hd
    by_cases hk : k' = k
    · subst hk
      simp only [dictInsert, if_pos rfl]
      exact ⟨h1, h2⟩
    · simp only [dictInsert, if_neg hk]
      refine ⟨?_, dictNodup_dictInsert rest k v h2⟩
      rw [dictGet?_dictInsert_ne rest k k' v (fun he => hk he.symm)]
      exact h1

lemma dictNodup_foldl {κ α : Type} [DecidableEq κ] :
    ∀ (entries acc : List (κ × α)), dictNodup acc →
      dictNodup (entries.foldl (fun d p => dictInsert d p.1 p.2) acc)
  | [], _, h => h
  | q :: rest, acc, h => by
    rw [List.foldl_cons]
    exact dictNodup_foldl rest _ (dictNodup_dictInsert acc q.1 q.2 h)

lemma dictInsert_of_none {κ α : Type} [DecidableEq κ] :
    ∀ (d : List (κ × α)) (k : κ) (v : α), dictGet? d k = none →
      dictInsert d k v = d ++ [(k, v)]
  | [], k, v, _ => rfl
  | (k', v') :: rest, k, v, h => by
    simp only [dictGet?] at h
    by_cases hk : k' = k
    · rw [if_pos hk] at h
      exact absurd h (by simp)
    · rw [if_neg hk] at h
      simp only [dictInsert, if_neg hk, List.cons_append]
      rw [dictInsert_of_none rest k v h]

lemma dictGet?_append_none {κ α : Type} [DecidableEq κ] :
    ∀ (d₁ d₂ : List (κ × α)) (k : κ), dictGet? d₁ k = none →
      dictGet? (d₁ ++ d₂) k = dictGet? d₂ k
  | [], d₂, k, _ => rfl
  | (k', v') :: rest, d₂, k, h => by
    simp only [dictGet?] at h
    by_cases hk : k' = k
    · rw [if_pos hk] at h
      exact absurd h (by simp)
    · rw [if_neg hk] at h
      simp only [List.cons_append, dictGet?, if_neg hk]
      exact dictGet?_append_none rest d₂ k h

lemma foldl_dictInsert_id {κ α : Type} [DecidableEq κ] :
    ∀ (m acc : List (κ × α)), dictNodup m → (∀ p ∈ m, dictGet? acc p.1 = none) →
      m.foldl (fun d p => dictInsert d p.1 p.2) acc = acc ++ m
  | [], acc, _, _ => by simp
  | p :: m', acc, hnd, hdisj => by
    obtain ⟨h1, h2⟩ := hnd
    rw [List.foldl_cons, dictInsert_of_none acc p.1 p.2 (hdisj p (List.mem_cons_self _ _)),
      Prod.mk.eta]
    rw [foldl_dictInsert_id m' (acc ++ [p]) h2 ?_]
    · simp
    · intro q hq
      rw [dictGet?_append_none acc [p] q.1 (hdisj q (List.mem_cons_of_mem _ hq))]
      have hne := dictGet?_none_forall m' p.1 h1 q hq
      obtain ⟨pk, pv⟩ := p
      simp only [dictGet?]
      rw [if_neg (fun he => hne he.symm)]

lemma to_dictLoop_serialize (fn2 : String) :
    ∀ (m₁ : List (List Char × List Char)), (∀ p ∈ m₁, goodEntry p) →
    ∀ (n : Nat) (acc : List (List Char × List Char)),
    to_dictLoop strConv fn2 (serializeDict m₁) n acc =
      .ok (m₁.foldl (fun d p => dictInsert d p.1 p.2) acc)
  | [], _, n, acc => by simp [serializeDict, to_dictLoop]
  | p :: m', hgood, n, acc => by
    have hp := hgood p (List.mem_cons_self _ _)
    have hsp : splitTab (pyStrip (p.1 ++ '\t' :: p.2)) = [p.1, p.2] := by
      rw [serial_strip p.1 p.2 hp]
      exact serial_split p.1 p.2 hp
    have hstep := to_dictLoop_cons_entry strConv fn2 (p.1 ++ '\t' :: p.2)
      (serializeDict m') n acc p.1 p.2 p.2 hsp rfl
    have hser : serializeDict (p :: m') = (p.1 ++ '\t' :: p.2) :: serializeDict m' := rfl
    rw [hser, hstep,
      to_dictLoop_serialize fn2 m' (fun q hq => hgood q (List.mem_cons_of_mem _ hq))
        (n + 1) (dictInsert acc p.1 p.2),
      List.foldl_cons]

end RoundTripLemmas

/-- C8: round trip — any mapping produced by a successful to_dict load with
the identity/string value type, when serialized back to tab-joined key/value
lines and loaded again, yields the same mapping. -/
theorem to_dict_round_trip (fn fn2 : String) (lines : List (List Char))
    (m : List (List Char × List Char))
    (h : to_dict strConv fn lines = .ok m) :
    to_dict strConv fn2 (serializeDict m) = .ok m := by
  have hm := to_dictLoop_ok_fold strConv fn lines 1 [] m h
  have hgood : ∀ p ∈ m, goodEntry p := by
    rw [hm]
    exact foldl_ins_good (lineEntries strConv lines) [] (lineEntries_good lines)
      (fun p hp => absurd hp (List.not_mem_nil p))
  have hnodup : dictNodup m := by
    rw [hm]
    exact dictNodup_foldl (lineEntries strConv lines) [] trivial
  unfold to_dict
  rw [to_dictLoop_serialize fn2 m hgood 1 [],
    foldl_dictInsert_id m [] hnodup (fun p _ => rfl), List.nil_append]

theorem to_dict_round_trip_witness :
    to_dict strConv "copy.txt"
        (serializeDict [(['a'], ['b']), (['c'], ['d'])]) =
      .ok [(['a'], ['b']), (['c'], ['d'])] :=
  to_dict_round_trip "orig.txt" "copy.txt" [['a', '\t', 'b'], ['c', '\t', 'd']]
    [(['a'], ['b']), (['c'], ['d'])] rfl
